import Mathlib

/-!
Verification of the PromptShield trust-decision core against its
specification.  The Rust sources under `src/frontend/src-tauri/src/` are
shallowly embedded below: pure functions become Lean functions on `Nat`,
`Int`, `List Nat` (byte strings) and `String`; calls into external crates
(ed25519-dalek, serde_json, chrono, sha2, reqwest) become explicit oracle
parameters; filesystem and network effects become explicit state passing
and effect traces.  Machine integers stay within range in the modelled
code paths, so `Nat`/`Int` are used directly.
-/

namespace PromptShield

/-! ## Base64 codec (the `base64` crate, `general_purpose::STANDARD` engine)

`STANDARD` uses the canonical alphabet with required padding and rejects
non-zero trailing bits and misplaced padding.  Bytes are modelled as `Nat`
values below 256; a base64 text is a `List Nat` of ASCII codes. -/

/-- Value of one base64 alphabet character (`A-Z a-z 0-9 + /`); `none` for
anything else, including `=`. -/
def b64val (c : Nat) : Option Nat :=
  if 65 ≤ c ∧ c ≤ 90 then some (c - 65)
  else if 97 ≤ c ∧ c ≤ 122 then some (c - 71)
  else if 48 ≤ c ∧ c ≤ 57 then some (c + 4)
  else if c = 43 then some 62
  else if c = 47 then some 63
  else none

/-- The base64 alphabet character for a 6-bit value. -/
def b64chr (v : Nat) : Nat :=
  if v < 26 then v + 65
  else if v < 52 then v + 71
  else if v < 62 then v - 4
  else if v = 62 then 43
  else 47

/-- Canonical base64 decoding, processing groups of four characters.
Mirrors the `STANDARD` engine: length must be a multiple of four, `=`
padding only in the final group, and unused trailing bits must be zero. -/
def decodeGroups : List Nat → Option (List Nat)
  | [] => some []
  | c0 :: c1 :: c2 :: c3 :: rest =>
    match b64val c0, b64val c1 with
    | some v0, some v1 =>
      if c2 = 61 then
        if c3 = 61 ∧ rest = [] ∧ v1 % 16 = 0 then some [v0 * 4 + v1 / 16] else none
      else
        match b64val c2 with
        | some v2 =>
          if c3 = 61 then
            if rest = [] ∧ v2 % 4 = 0 then
              some [v0 * 4 + v1 / 16, v1 % 16 * 16 + v2 / 4]
            else none
          else
            match b64val c3 with
            | some v3 =>
              (decodeGroups rest).map
                (fun bs => (v0 * 4 + v1 / 16) :: (v1 % 16 * 16 + v2 / 4) ::
                  (v2 % 4 * 64 + v3) :: bs)
            | none => none
        | none => none
    | _, _ => none
  | _ => none

/-- `B64.decode` of the source. -/
def decodeB64 (l : List Nat) : Option (List Nat) := decodeGroups l

/-- Canonical base64 encoding (used only to reason about the decoder:
decoding is a section of encoding). -/
def encodeGroups : List Nat → List Nat
  | [] => []
  | [b0] => [b64chr (b0 / 4), b64chr (b0 % 4 * 16), 61, 61]
  | [b0, b1] => [b64chr (b0 / 4), b64chr (b0 % 4 * 16 + b1 / 16), b64chr (b1 % 16 * 4), 61]
  | b0 :: b1 :: b2 :: rest =>
    b64chr (b0 / 4) :: b64chr (b0 % 4 * 16 + b1 / 16) ::
      b64chr (b1 % 16 * 4 + b2 / 64) :: b64chr (b2 % 64) :: encodeGroups rest

/-- Sanity instances of the decoder against the reference vectors of the
`STANDARD` engine (padding required, non-canonical input rejected). -/
theorem decodeB64_sanity :
    decodeB64 ("AA==".data.map Char.toNat) = some [0] ∧
    decodeB64 ("TWFu".data.map Char.toNat) = some [77, 97, 110] ∧
    decodeB64 ("TWE=".data.map Char.toNat) = some [77, 97] ∧
    decodeB64 ("TWF=".data.map Char.toNat) = none ∧
    decodeB64 ("TWF".data.map Char.toNat) = none := by
  refine ⟨?_, ?_, ?_, ?_, ?_⟩ <;> decide

/-! ## `license.rs` — license codec, verification, trust gate

Timestamps are modelled at one-second granularity as `Int` (seconds since
the epoch); `Utc::now()` becomes an explicit `now : Int` parameter.
External crate calls are collected in the `Ext` oracle record. -/

/-- Parsed license payload — field for field the `LicensePayload` struct
(`email, plan, seats, machine_id, issued, expires, v`, with `v`
defaulting to 1 under serde). -/
structure LicensePayload where
  email : String
  plan : String
  seats : Nat
  machine_id : String
  issued : String
  expires : String
  v : Nat := 1
  deriving DecidableEq, Repr

/-- Oracles for the external crates used by `license.rs`:
`verify` is `ed25519_dalek::VerifyingKey::verify` for the build-embedded
public key (payload bytes, signature bytes); `keyValid` is whether
`VerifyingKey::from_bytes` succeeds on that fixed key; `parsePayload` is
`serde_json::from_slice::<LicensePayload>`; `parseDate` is
`chrono::DateTime::parse_from_rfc3339` converted to epoch seconds UTC. -/
structure Ext where
  verify : List Nat → List Nat → Bool
  keyValid : Bool
  parsePayload : List Nat → Option LicensePayload
  parseDate : String → Option Int

/-- `LicensePayload::is_expired`: parse `expires`; a parse failure counts
as expired (`unwrap_or(true)`); otherwise expired iff strictly before
`now`. -/
def is_expired (E : Ext) (now : Int) (p : LicensePayload) : Bool :=
  match E.parseDate p.expires with
  | some e => decide (e < now)
  | none => true

/-- `LicensePayload::days_remaining`: `(expires - now).num_days()`, where
chrono's `num_days` divides the whole seconds by 86400 truncating toward
zero (Rust `i64` division); `-1` when `expires` fails to parse. -/
def days_remaining (E : Ext) (now : Int) (p : LicensePayload) : Int :=
  match E.parseDate p.expires with
  | some e => Int.tdiv (e - now) 86400
  | none => -1

/-- The build-embedded Ed25519 public key constant
`ED25519_PUBLIC_KEY_B64`, as ASCII bytes. -/
def pubKeyB64 : List Nat :=
  "B4EIWiBILG2lIl4tq4KeQsm/Vh2Z3q5YUpsl2yxH1q4=".data.map Char.toNat

/-- The distinct error branches of `verify_license_blob` (the source
returns `format!` strings; the dynamic parts of the messages are elided,
the branch identity is kept). -/
inductive LErr where
  /-- "Invalid license format" — not exactly two `.`-separated parts. -/
  | invalidFormat
  /-- "Bad payload base64" -/
  | badPayloadB64
  /-- "Bad signature base64" -/
  | badSigB64
  /-- "Bad public key" — base64 decode of the embedded key fails. -/
  | badPubKeyB64
  /-- "Public key must be 32 bytes" -/
  | pubKeyLen
  /-- "Invalid public key" — `VerifyingKey::from_bytes` fails. -/
  | pubKeyInvalid
  /-- "Signature must be 64 bytes" -/
  | sigLen
  /-- "Signature verification failed — license is invalid or tampered" -/
  | sigInvalid
  /-- "Bad payload JSON" -/
  | badJson
  /-- "License expired on {expires}. Please revalidate online." -/
  | expired (expires : String)
  /-- "No license file found. Please activate." — produced by
  `validate_stored_license`, not by `verify_license_blob`. -/
  | noLicenseFile
  /-- "License is bound to a different machine" — produced by
  `validate_for_machine`, not by `verify_license_blob`. -/
  | machineMismatch
  deriving DecidableEq, Repr

/-- The split predicate of `splitn(2, '.')`: not the `.` byte. -/
def notDot (c : Nat) : Bool := c ≠ 46

/-- `blob.splitn(2, '.')`: at most two parts, split at the first `.`
(ASCII 46). -/
def splitn2 (l : List Nat) : List (List Nat) :=
  if 46 ∈ l then
    [l.takeWhile notDot, (l.dropWhile notDot).tail]
  else [l]

/-- The body of `verify_license_blob` after the split: base64-decode
payload and signature, decode the embedded public key, check lengths,
verify the Ed25519 signature, parse the payload JSON, and reject expired
licenses — in the source's order. -/
def verifyParts (E : Ext) (now : Int) (p s : List Nat) :
    Except LErr LicensePayload :=
  match decodeB64 p with
  | none => .error .badPayloadB64
  | some payload_bytes =>
    match decodeB64 s with
    | none => .error .badSigB64
    | some sig_bytes =>
      match decodeB64 pubKeyB64 with
      | none => .error .badPubKeyB64
      | some pub_key_bytes =>
        if pub_key_bytes.length ≠ 32 then .error .pubKeyLen
        else if ¬ E.keyValid then .error .pubKeyInvalid
        else if sig_bytes.length ≠ 64 then .error .sigLen
        else if ¬ E.verify payload_bytes sig_bytes then .error .sigInvalid
        else
          match E.parsePayload payload_bytes with
          | none => .error .badJson
          | some payload =>
            if is_expired E now payload then .error (.expired payload.expires)
            else .ok payload

/-- `verify_license_blob`: split on the first `.` into exactly two parts
and run the checks of `verifyParts`. -/
def verify_license_blob (E : Ext) (now : Int) (blob : List Nat) :
    Except LErr LicensePayload :=
  match splitn2 blob with
  | [p, s] => verifyParts E now p s
  | _ => .error .invalidFormat

/-- Result of a license verification attempt (`LicenseStatus`). -/
structure LicenseStatus where
  valid : Bool
  payload : Option LicensePayload
  error : Option LErr
  days_remaining : Option Int
  deriving DecidableEq, Repr

/-- ASCII whitespace trimming, modelling `str::trim` on the stored blob
(license blobs are base64 text plus `.`, so the ASCII whitespace subset
is exact here). -/
def trimAscii (l : List Nat) : List Nat :=
  let ws : Nat → Bool := fun c => c = 32 ∨ c = 9 ∨ c = 10 ∨ c = 13
  ((l.dropWhile ws).reverse.dropWhile ws).reverse

/-- `read_license_file`: the license file content, trimmed; `none` when
the file is absent. The file is the explicit state `file`. -/
def read_license_file (file : Option (List Nat)) : Option (List Nat) :=
  file.map trimAscii

/-- `validate_stored_license` over the explicit file state. -/
def validate_stored_license (E : Ext) (now : Int) (file : Option (List Nat)) :
    LicenseStatus :=
  match read_license_file file with
  | none =>
    { valid := false, payload := none, error := some .noLicenseFile,
      days_remaining := none }
  | some blob =>
    match verify_license_blob E now blob with
    | .ok payload =>
      { valid := true, payload := some payload, error := none,
        days_remaining := some (days_remaining E now payload) }
    | .error e =>
      { valid := false, payload := none, error := some e,
        days_remaining := none }

/-- The machine-binding step of `validate_for_machine`, applied to the
status computed by `validate_stored_license`. -/
def machineGate (machine_fingerprint : String) (status : LicenseStatus) :
    LicenseStatus :=
  match status.payload with
  | some payload =>
    if payload.machine_id ≠ machine_fingerprint then
      { valid := false, payload := status.payload,
        error := some .machineMismatch,
        days_remaining := status.days_remaining }
    else status
  | none => status

/-- `validate_for_machine`: machine binding on top of
`validate_stored_license`. -/
def validate_for_machine (E : Ext) (now : Int) (file : Option (List Nat))
    (machine_fingerprint : String) : LicenseStatus :=
  machineGate machine_fingerprint (validate_stored_license E now file)

/-- `write_license_file` followed by `validate_for_machine`, i.e. the
`store_license` Tauri command from `lib.rs`.  The filesystem write is
modelled as succeeding (single writer, directory creatable); it replaces
the file state with the raw blob before any validation runs, and the
validation then re-reads that new state. -/
def store_license (E : Ext) (now : Int) (_file : Option (List Nat))
    (blob : List Nat) (fingerprint : String) :
    Except String LicenseStatus × Option (List Nat) :=
  let file1 := some blob
  (.ok (validate_for_machine E now file1 fingerprint), file1)

/-- `delete_license_file`: removes the file if present (errors ignored at
the call site in `check_revocation`). -/
def delete_license_file (_file : Option (List Nat)) : Option (List Nat) :=
  none

/-- Outcome of a `reqwest` GET as observed by the caller: either a
transport failure/timeout, or a response carrying its
`status().is_success()` flag and the result of deserialising the body
(`none` = undecodable JSON). -/
inductive NetResp (α : Type) where
  | fail
  | response (statusOk : Bool) (body : Option α)
  deriving DecidableEq, Repr

/-- The two error branches of `check_clock_drift`. -/
inductive ClockErr where
  /-- "Cannot parse server time: {e}" -/
  | parseError
  /-- "System clock appears to be off by {drift} seconds. ..." -/
  | tamper
  deriving DecidableEq, Repr

/-- `MAX_CLOCK_DRIFT_SECS` -/
def MAX_CLOCK_DRIFT_SECS : Int := 300

/-- `check_clock_drift`: transport failure or non-success status or
undecodable body fail open; a decoded `utc_datetime` string is parsed by
`parse_from_rfc3339` (`parse1`) with a `parse_from_str` fallback
(`parse2`); a parse failure is returned as an error via `?`; otherwise
the absolute drift against the local clock is compared to the 300s
threshold.  (The infallible-in-practice `Client::builder().build()` step
is elided.) -/
def check_clock_drift (parse1 parse2 : String → Option Int) (now : Int)
    (resp : NetResp String) : Except ClockErr Unit :=
  match resp with
  | .fail => .ok ()
  | .response false _ => .ok ()
  | .response true none => .ok ()
  | .response true (some s) =>
    match (parse1 s).orElse (fun _ => parse2 s) with
    | none => .error .parseError
    | some server_time =>
      let drift := |server_time - now|
      if MAX_CLOCK_DRIFT_SECS < drift then .error .tamper else .ok ()

/-- `check_revocation`: queries the server; only an explicit decoded
`revoked = true` deletes the license file and returns the revoked error;
every other outcome (transport failure, non-success status, undecodable
body, `revoked = false`) returns `Ok` and leaves the file state alone.
The body oracle result is the decoded `revoked` field. -/
def check_revocation (resp : NetResp Bool) (file : Option (List Nat)) :
    Except String Unit × Option (List Nat) :=
  match resp with
  | .fail => (.ok (), file)
  | .response false _ => (.ok (), file)
  | .response true none => (.ok (), file)
  | .response true (some revoked) =>
    if revoked then
      (.error "Your license has been revoked. Please sign in again or contact support.",
        delete_license_file file)
    else (.ok (), file)

/-! ## `machine_id.rs` — machine fingerprint -/

/-- One hex digit of `format!("{:02x}", b)` (lowercase). -/
def hexDigit (n : Nat) : Char :=
  Char.ofNat (if n < 10 then 48 + n else 87 + n)

/-- `hex_encode`: each byte as two lowercase hex characters. -/
def hex_encode (bytes : List Nat) : String :=
  String.mk (bytes.foldr (fun b acc => hexDigit (b / 16) :: hexDigit (b % 16) :: acc) [])

/-- `collect_raw_identifiers` (Windows branch shape, representative of
all three platform branches): the raw identifiers joined with the fixed
`|` delimiter (ASCII 124).  Identifiers are byte strings; an unavailable
source already appears here as its sentinel value. -/
def collect_raw_identifiers (ids : List (List Nat)) : List Nat :=
  match ids with
  | [] => []
  | i :: rest => i ++ rest.foldr (fun x acc => 124 :: x ++ acc) []

/-- `get_machine_fingerprint`: SHA-256 (the `sha2` crate, as oracle
`sha256`) of the joined identifiers, hex encoded. -/
def get_machine_fingerprint (sha256 : List Nat → List Nat)
    (ids : List (List Nat)) : String :=
  hex_encode (sha256 (collect_raw_identifiers ids))

/-! ## `updater.rs` — update integrity pipeline -/

/-- Rust `str::parse::<u64>`: an optional leading `+`, then one or more
ASCII digits, value within `u64` range. -/
def parseU64 (s : String) : Option Nat :=
  let cs := s.data
  let ds := if cs.head? = some '+' then cs.tail else cs
  if ds.isEmpty then none
  else if ds.all (fun c => 48 ≤ c.toNat ∧ c.toNat ≤ 57) then
    let v := ds.foldl (fun a c => a * 10 + (c.toNat - 48)) 0
    if v < 2 ^ 64 then some v else none
  else none

/-- Rust `str::split(sep)` on a character pattern: the substrings
between all occurrences of `sep`, empty substrings included (so `""`
yields `[""]` and `"a."` yields `["a", ""]`). -/
def splitChar (sep : Char) : List Char → List (List Char)
  | [] => [[]]
  | c :: rest =>
    let r := splitChar sep rest
    if c = sep then [] :: r
    else
      match r with
      | h :: t => (c :: h) :: t
      | [] => [[c]]

/-- The `parse` closure of `is_newer_version`: strip leading `v`
characters, split on `.`, keep the components that parse as `u64`
(`filter_map`). -/
def parseVersion (v : String) : List Nat :=
  (splitChar '.' (v.data.dropWhile (fun c => c = 'v'))).filterMap
    (fun cs => parseU64 (String.mk cs))

/-- The comparison loop of `is_newer_version`: for each index up to the
longer length, missing components read as 0; first strictly greater
remote component decides `true`, first strictly smaller decides `false`;
all equal gives `false`. -/
def cmpComponents : List Nat → List Nat → Bool
  | [], [] => false
  | [], rv :: rs => if 0 < rv then true else cmpComponents [] rs
  | _lv :: ls, [] => if 0 < _lv then false else cmpComponents ls []
  | lv :: ls, rv :: rs =>
    if lv < rv then true else if rv < lv then false else cmpComponents ls rs

/-- `is_newer_version(local, remote)`: true iff `remote` is strictly
newer. -/
def is_newer_version (lcl rmt : String) : Bool :=
  cmpComponents (parseVersion lcl) (parseVersion rmt)

/-- `str::to_lowercase` restricted to ASCII (applied to hex digest
strings in the source, where ASCII lowering is exact). -/
def toLowerAscii (s : String) : String :=
  String.mk (s.data.map (fun c =>
    if 65 ≤ c.toNat ∧ c.toNat ≤ 90 then Char.ofNat (c.toNat + 32) else c))

/-- `UpdateManifest` -/
structure UpdateManifest where
  version : String
  notes : String
  pub_date : String
  url : String
  sha256 : String
  size : Nat
  mandatory : Bool := false
  deriving DecidableEq, Repr

/-- `InstallResult` -/
structure InstallResult where
  success : Bool
  message : String
  needs_restart : Bool
  deriving DecidableEq, Repr

/-- `OfflinePackageMeta` -/
structure OfflinePackageMeta where
  version : String
  sha256 : String
  notes : String
  pub_date : String
  platform : String
  deriving DecidableEq, Repr

/-- Observable side effects of the update pipeline: a file written into
the staging directory (named by its path there), and an installer spawn
attempt.  Progress events emitted to the UI are elided. -/
inductive Effect where
  | wrote (path : String) (data : List Nat)
  | launched (path : String)
  deriving DecidableEq, Repr

/-- `launch_installer`: picks installer arguments from the (lowercased)
extension and spawns the process — both match arms attempt a spawn, so
only the attempt and its success (`spawnOk`) are modelled. -/
def launch_installer (spawnOk : String → Bool) (path : String) :
    InstallResult × List Effect :=
  if spawnOk path then
    ({ success := true,
       message := "Update installer launched. The app will restart.",
       needs_restart := true }, [.launched path])
  else
    ({ success := false, message := "Failed to launch installer",
       needs_restart := false }, [.launched path])

/-- `download_file`: GET the package; transport failure, non-success
status and an unreadable body are errors; the SHA-256 hex digest of the
received bytes (`sha256hex`, the `sha2` + `hex` crates) is compared to
the lowercased expected digest *before* the file is written.  The
filesystem write is modelled as succeeding. -/
def download_file (sha256hex : List Nat → String) (dest : String)
    (expected_sha256 : String) (resp : NetResp (List Nat)) :
    Except String Unit × List Effect :=
  match resp with
  | .fail => (.error "Download request failed", [])
  | .response false _ => (.error "Download failed with status", [])
  | .response true none => (.error "Failed to read download body", [])
  | .response true (some bytes) =>
    if sha256hex bytes ≠ toLowerAscii expected_sha256 then
      (.error "SHA-256 mismatch", [])
    else (.ok (), [.wrote dest bytes])

/-- `manifest.url.rsplit('/').next()`: the substring after the last `/`
(the whole string when there is no `/`; the `unwrap_or` default is
unreachable since `rsplit` always yields one item). -/
def urlFilename (url : String) : String :=
  String.mk ((splitChar '/' url.data).getLastD "update-package.exe".data)

/-- `download_and_install`: stage the download (with digest check inside
`download_file`), then launch the installer. -/
def download_and_install (sha256hex : List Nat → String)
    (spawnOk : String → Bool) (manifest : UpdateManifest)
    (resp : NetResp (List Nat)) : InstallResult × List Effect :=
  match download_file sha256hex (urlFilename manifest.url) manifest.sha256 resp with
  | (.error e, effs) =>
    ({ success := false, message := "Download failed: " ++ e,
       needs_restart := false }, effs)
  | (.ok _, effs) =>
    ((launch_installer spawnOk (urlFilename manifest.url)).1,
      effs ++ (launch_installer spawnOk (urlFilename manifest.url)).2)

/-- One entry of the offline package zip archive. -/
structure ZipEntry where
  name : String
  isDir : Bool
  data : List Nat
  deriving DecidableEq, Repr

/-- An offline package file as seen by the updater: missing, unreadable
as a zip, or an archive with its entries in index order. -/
inductive PackageSrc where
  | notFound
  | badZip
  | archive (entries : List ZipEntry)
  deriving DecidableEq, Repr

/-- Oracles for the external crates used on the offline path: `utf8` is
`read_to_string` on an entry (`none` = invalid UTF-8 / read error);
`parseMeta` is `serde_json::from_str::<OfflinePackageMeta>`; `sha256hex`
is `hex::encode(Sha256::digest(..))`. -/
structure UpdExt where
  utf8 : List Nat → Option String
  parseMeta : String → Option OfflinePackageMeta
  sha256hex : List Nat → String

/-- `archive.by_name("manifest.json")` then `read_to_string` then
`serde_json::from_str`, shared by both offline functions. -/
def readManifestEntry (U : UpdExt) (entries : List ZipEntry) :
    Except String OfflinePackageMeta :=
  match entries.find? (fun e => e.name = "manifest.json") with
  | none => .error "missing manifest.json"
  | some e =>
    match U.utf8 e.data with
    | none => .error "Failed to read manifest"
    | some s =>
      match U.parseMeta s with
      | none => .error "Invalid manifest"
      | some meta => .ok meta

/-- `read_offline_package`: open the archive, read and parse
`manifest.json`, and reject the package when its declared version is not
strictly newer than `CURRENT_VERSION` (`currentVersion` here).  No entry
is extracted on this path. -/
def read_offline_package (U : UpdExt) (currentVersion : String)
    (src : PackageSrc) : Except String OfflinePackageMeta :=
  match src with
  | .notFound => .error "File not found"
  | .badZip => .error "Invalid update package (not a valid zip)"
  | .archive entries =>
    match readManifestEntry U entries with
    | .error e => .error e
    | .ok meta =>
      if ¬ is_newer_version currentVersion meta.version then
        .error "Package version is not newer than current version"
      else .ok meta

/-- One iteration of the extraction loop of `install_offline_package`:
entries named `manifest.json` and directories are skipped; every other
entry is written to the staging directory under its entry name and
becomes the current `installer_path` candidate (with its data). -/
def extractStep (acc : List Effect × Option (String × List Nat))
    (e : ZipEntry) : List Effect × Option (String × List Nat) :=
  if e.name = "manifest.json" ∨ e.isDir then acc
  else (acc.1 ++ [.wrote e.name e.data], some (e.name, e.data))

/-- The extraction loop of `install_offline_package`: `installer_path`
ends as the destination of the last non-manifest, non-directory entry.
Returns the write effects in order and that last staged (name, data)
pair.  File create/copy errors are modelled as not occurring. -/
def extractEntries (entries : List ZipEntry) :
    List Effect × Option (String × List Nat) :=
  entries.foldl extractStep ([], none)

/-- `install_offline_package`: open the archive, read `manifest.json`,
extract all non-manifest entries, digest the extracted installer and
compare with the manifest digest, and only on a match launch the
installer.  The declared version is *not* compared with the current
version on this path — `_currentVersion` (the module's
`CURRENT_VERSION`) is in scope but unused.  The digest is computed over
the staged installer file, whose content is the data of the last
extracted entry (its write happens last). -/
def install_offline_package (U : UpdExt) (spawnOk : String → Bool)
    (_currentVersion : String) (src : PackageSrc) :
    InstallResult × List Effect :=
  match src with
  | .notFound =>
    ({ success := false, message := "Failed to open package",
       needs_restart := false }, [])
  | .badZip =>
    ({ success := false, message := "Invalid update package",
       needs_restart := false }, [])
  | .archive entries =>
    match readManifestEntry U entries with
    | .error e =>
      ({ success := false, message := e, needs_restart := false }, [])
    | .ok meta =>
      match (extractEntries entries).2 with
      | none =>
        ({ success := false, message := "No installer found in update package",
           needs_restart := false }, (extractEntries entries).1)
      | some (name, data) =>
        if U.sha256hex data ≠ toLowerAscii meta.sha256 then
          ({ success := false, message := "Integrity check failed",
             needs_restart := false }, (extractEntries entries).1)
        else
          ((launch_installer spawnOk name).1,
            (extractEntries entries).1 ++ (launch_installer spawnOk name).2)

/-! ## Spec-side definitions

These follow the specification's words, for comparison with the
definitions translated from the source. -/

/-- Pad a component list with trailing zeros to length `n` ("missing
trailing components treated as 0"). -/
def padTo (n : Nat) (l : List Nat) : List Nat :=
  l ++ List.replicate (n - l.length) 0

/-- The spec's version order: after padding both component lists with
zeros to a common length, the remote list is strictly greater in the
lexicographic order. -/
def versionNewerSpec (lcl rmt : List Nat) : Prop :=
  List.Lex (· < ·) (padTo (max lcl.length rmt.length) lcl)
    (padTo (max lcl.length rmt.length) rmt)

/-- Ceiling of `d` seconds measured in days, the spec's
`ceil((expiry − now) in days)`. -/
def ceilDays (d : Int) : Int := -(Int.ediv (-d) 86400)

/-! ## Helper lemmas -/

theorem padTo_self (l : List Nat) : padTo l.length l = l := by
  simp [padTo]

theorem padTo_cons (m : Nat) (x : Nat) (xs : List Nat) :
    padTo (m + 1) (x :: xs) = x :: padTo m xs := by
  simp [padTo]

theorem lex_cons_cons_iff (a b : Nat) (l1 l2 : List Nat) :
    List.Lex (· < ·) (a :: l1) (b :: l2) ↔
      a < b ∨ (a = b ∧ List.Lex (· < ·) l1 l2) := by
  constructor
  · intro h
    cases h with
    | cons h => exact Or.inr ⟨rfl, h⟩
    | rel h => exact Or.inl h
  · rintro (h | ⟨rfl, h⟩)
    · exact List.Lex.rel h
    · exact List.Lex.cons h

theorem cmpComponents_iff_lex : ∀ l r : List Nat,
    cmpComponents l r = true ↔ versionNewerSpec l r := by
  intro l
  induction l with
  | nil =>
    intro r
    induction r with
    | nil =>
      simp only [cmpComponents, versionNewerSpec, padTo, List.length_nil]
      simp
    | cons rv rs ihr =>
      simp only [versionNewerSpec, List.length_nil, List.length_cons,
        Nat.zero_max] at ihr ⊢
      have hpadl : padTo (rs.length + 1) ([] : List Nat)
          = 0 :: padTo rs.length [] := by
        simp [padTo, List.replicate_succ]
      rw [hpadl, padTo_cons, lex_cons_cons_iff]
      simp only [cmpComponents]
      constructor
      · intro h
        by_cases h0 : 0 < rv
        · exact Or.inl h0
        · simp [h0] at h
          exact Or.inr ⟨by omega, ihr.mp h⟩
      · rintro (h | ⟨h, hl⟩)
        · simp [h]
        · simp [show rv = 0 by omega, ihr.mpr hl]
  | cons lv ls ihl =>
    intro r
    cases r with
    | nil =>
      have ih := ihl []
      simp only [versionNewerSpec, List.length_nil, List.length_cons,
        Nat.max_zero] at ih ⊢
      have hpadr : padTo (ls.length + 1) ([] : List Nat)
          = 0 :: padTo ls.length [] := by
        simp [padTo, List.replicate_succ]
      rw [hpadr, padTo_cons, lex_cons_cons_iff]
      simp only [cmpComponents]
      constructor
      · intro h
        by_cases h0 : 0 < lv
        · simp [h0] at h
        · simp [h0] at h
          exact Or.inr ⟨by omega, ih.mp h⟩
      · rintro (h | ⟨h, hl⟩)
        · omega
        · simp [show ¬ 0 < lv by omega, ih.mpr hl]
    | cons rv rs =>
      have ih := ihl rs
      simp only [versionNewerSpec, List.length_cons, Nat.succ_max_succ] at ih ⊢
      rw [padTo_cons, padTo_cons, lex_cons_cons_iff]
      simp only [cmpComponents]
      constructor
      · intro h
        by_cases hlt : lv < rv
        · exact Or.inl hlt
        · by_cases hgt : rv < lv
          · simp [hlt, hgt] at h
          · simp [hlt, hgt] at h
            exact Or.inr ⟨by omega, ih.mp h⟩
      · rintro (h | ⟨h, hl⟩)
        · simp [h]
        · simp [h, show ¬ lv < lv by omega, ih.mpr hl]


/-! ## Claim C6 -/

/-- C6: `is_newer_version` compares dotted numeric version components
left-to-right with missing trailing components treated as 0, and returns
`true` exactly when the remote version is greater than the local one (in
the zero-padded lexicographic order); in particular
`is_newer_version("1.2.0","1.2.0") = false`,
`is_newer_version("1.2.0","1.2.1") = true`,
`is_newer_version("1.9.0","2.0.0") = true`, and
`is_newer_version("1.2","1.2.0") = false`. -/
theorem C6_is_newer_version_lex_order :
    (∀ lcl rmt : String, is_newer_version lcl rmt = true ↔
      versionNewerSpec (parseVersion lcl) (parseVersion rmt)) ∧
    is_newer_version "1.2.0" "1.2.0" = false ∧
    is_newer_version "1.2.0" "1.2.1" = true ∧
    is_newer_version "1.9.0" "2.0.0" = true ∧
    is_newer_version "1.2" "1.2.0" = false := by
  have h120 : parseVersion "1.2.0" = [1, 2, 0] := by decide
  have h121 : parseVersion "1.2.1" = [1, 2, 1] := by decide
  have h190 : parseVersion "1.9.0" = [1, 9, 0] := by decide
  have h200 : parseVersion "2.0.0" = [2, 0, 0] := by decide
  have h12 : parseVersion "1.2" = [1, 2] := by decide
  refine ⟨fun lcl rmt => cmpComponents_iff_lex _ _, ?_, ?_, ?_, ?_⟩ <;>
    simp [is_newer_version, h120, h121, h190, h200, h12, cmpComponents]

/-- Witness for C6: the general equivalence applied at a concrete pair. -/
theorem C6_is_newer_version_lex_order_witness :
    versionNewerSpec (parseVersion "1.2.0") (parseVersion "1.2.1") :=
  (C6_is_newer_version_lex_order.1 "1.2.0" "1.2.1").mp
    C6_is_newer_version_lex_order.2.2.1

/-! ## Claim C3 -/

/-- The revoked error message of `check_revocation`. -/
def revokedMsg : String :=
  "Your license has been revoked. Please sign in again or contact support."

/-- C3: `check_revocation` deletes the local license file and returns the
revoked error exactly when the server returns a well-formed response with
`revoked = true`; every network failure, non-success status or malformed
response (and a well-formed `revoked = false`) returns success and leaves
the license file unchanged, so no path other than `revoked = true`
mutates persisted state. -/
theorem C3_check_revocation_policy :
    ∀ (resp : NetResp Bool) (file : Option (List Nat)),
      (check_revocation resp file = (.error revokedMsg, none) ↔
        resp = .response true (some true)) ∧
      (resp ≠ .response true (some true) →
        check_revocation resp file = (.ok (), file)) := by
  intro resp file
  constructor
  · constructor
    · intro h
      cases resp with
      | fail => simp [check_revocation] at h
      | response ok body =>
        cases ok with
        | false => simp [check_revocation] at h
        | true =>
          cases body with
          | none => simp [check_revocation] at h
          | some revoked =>
            cases revoked with
            | false => simp [check_revocation] at h
            | true => rfl
    · rintro rfl
      simp [check_revocation, revokedMsg, delete_license_file]
  · intro hne
    cases resp with
    | fail => rfl
    | response ok body =>
      cases ok with
      | false => rfl
      | true =>
        cases body with
        | none => rfl
        | some revoked =>
          cases revoked with
          | false => rfl
          | true => exact absurd rfl hne

/-- Witness for C3 at a concrete file state: an unreachable network
passes and keeps the file; an explicit `revoked = true` deletes it and
errors. -/
theorem C3_check_revocation_policy_witness :
    check_revocation .fail (some [65]) = (.ok (), some [65]) ∧
    check_revocation (.response true (some true)) (some [65]) =
      (.error revokedMsg, none) := by
  refine ⟨(C3_check_revocation_policy .fail (some [65])).2 (by simp), ?_⟩
  exact (C3_check_revocation_policy (.response true (some true)) (some [65])).1.mpr rfl

/-! ## Claim C2 -/

/-- The combined timestamp parse of `check_clock_drift`:
`parse_from_rfc3339` with the `parse_from_str` fallback. -/
def parseServerTime (parse1 parse2 : String → Option Int) (s : String) :
    Option Int :=
  (parse1 s).orElse (fun _ => parse2 s)

/-- C2 counterexample: a successful HTTP response whose JSON body decodes
but whose `utc_datetime` string parses under neither format makes
`check_clock_drift` return an error (via the `map_err(..)?` on the parse)
— not success as the claim requires for every malformed response. -/
theorem C2_clock_drift_counterexample :
    check_clock_drift (fun _ => none) (fun _ => none) 0
        (.response true (some "not-a-timestamp")) = .error .parseError ∧
    (Except.error .parseError : Except ClockErr Unit) ≠ .ok () := by
  constructor
  · rfl
  · intro h
    cases h

/-- C2 (amended): transport failure, timeout, non-success status and an
undecodable JSON body all fail open; but a decoded body whose timestamp
string parses under neither format returns a parse error; the
clock-tamper error is returned exactly when a well-formed server time is
obtained whose absolute difference from the local clock exceeds 300
seconds. -/
theorem C2_clock_drift_policy :
    ∀ (parse1 parse2 : String → Option Int) (now : Int) (resp : NetResp String),
      ((resp = .fail ∨ (∃ b, resp = .response false b) ∨
          resp = .response true none) →
        check_clock_drift parse1 parse2 now resp = .ok ()) ∧
      (∀ s, resp = .response true (some s) →
        parseServerTime parse1 parse2 s = none →
        check_clock_drift parse1 parse2 now resp = .error .parseError) ∧
      (check_clock_drift parse1 parse2 now resp = .error .tamper ↔
        ∃ s t, resp = .response true (some s) ∧
          parseServerTime parse1 parse2 s = some t ∧
          MAX_CLOCK_DRIFT_SECS < |t - now|) := by
  intro parse1 parse2 now resp
  refine ⟨?_, ?_, ?_⟩
  · rintro (rfl | ⟨b, rfl⟩ | rfl) <;> rfl
  · rintro s rfl hp
    simp only [check_clock_drift]
    rw [show (parse1 s).orElse (fun _ => parse2 s) = none from hp]
  · constructor
    · intro h
      cases resp with
      | fail => simp [check_clock_drift] at h
      | response ok body =>
        cases ok with
        | false => simp [check_clock_drift] at h
        | true =>
          cases body with
          | none => simp [check_clock_drift] at h
          | some s =>
            refine ⟨s, ?_⟩
            simp only [check_clock_drift] at h
            cases hp : (parse1 s).orElse (fun _ => parse2 s) with
            | none => rw [hp] at h; cases h
            | some t =>
              rw [hp] at h
              by_cases hd : MAX_CLOCK_DRIFT_SECS < |t - now|
              · exact ⟨t, rfl, hp, hd⟩
              · simp [hd] at h
    · rintro ⟨s, t, rfl, hp, hd⟩
      simp only [check_clock_drift, parseServerTime] at hp ⊢
      rw [hp]
      simp [hd]

/-- Witness for C2 at concrete inputs: fail-open on transport failure,
and the tamper error for a parsed server time 301 seconds away. -/
theorem C2_clock_drift_policy_witness :
    check_clock_drift (fun _ => some 301) (fun _ => none) 0 .fail = .ok () ∧
    check_clock_drift (fun _ => some 301) (fun _ => none) 0
      (.response true (some "t")) = .error .tamper := by
  constructor
  · exact (C2_clock_drift_policy (fun _ => some 301) (fun _ => none) 0 .fail).1
      (Or.inl rfl)
  · exact (C2_clock_drift_policy (fun _ => some 301) (fun _ => none) 0
      (.response true (some "t"))).2.2.mpr ⟨"t", 301, rfl, rfl, by decide⟩

/-! ## Claim C10 -/

/-- C10: `store_license` writes the blob to the license file before any
validation occurs: the new file state holds the raw blob no matter what
the blob contains, the returned value is `Ok` of the validation performed
on that freshly written state, and when the (trimmed re-read) blob fails
verification the result is still `Ok` carrying an invalid
`LicenseStatus`, never an `Err`.  The previous file content is
overwritten unconditionally. -/
theorem C10_store_license_persists_then_validates :
    ∀ (E : Ext) (now : Int) (file : Option (List Nat)) (blob : List Nat)
      (fp : String),
      (store_license E now file blob fp).2 = some blob ∧
      (store_license E now file blob fp).1 =
        .ok (validate_for_machine E now (some blob) fp) ∧
      (∀ e, verify_license_blob E now (trimAscii blob) = .error e →
        (store_license E now file blob fp).1 =
          .ok { valid := false, payload := none, error := some e,
                days_remaining := none }) := by
  intro E now file blob fp
  refine ⟨rfl, rfl, ?_⟩
  intro e he
  simp [store_license, validate_for_machine, validate_stored_license,
    read_license_file, machineGate, he]

/-- Witness for C10: storing an empty blob (which verifies to the
"Invalid license format" error) still returns `Ok` of an invalid status,
and the file state holds the blob. -/
theorem C10_store_license_persists_then_validates_witness :
    (store_license ⟨fun _ _ => false, false, fun _ => none, fun _ => none⟩ 0
      (some [65]) [] "fp").1 =
      .ok { valid := false, payload := none, error := some .invalidFormat,
            days_remaining := none } ∧
    (store_license ⟨fun _ _ => false, false, fun _ => none, fun _ => none⟩ 0
      (some [65]) [] "fp").2 = some [] := by
  have h := C10_store_license_persists_then_validates
    ⟨fun _ _ => false, false, fun _ => none, fun _ => none⟩ 0 (some [65]) [] "fp"
  exact ⟨h.2.2 .invalidFormat rfl, h.1⟩

/-! ## Claim C8 -/

theorem hex_encode_data (bs : List Nat) :
    (hex_encode bs).data =
      bs.foldr (fun b acc => hexDigit (b / 16) :: hexDigit (b % 16) :: acc) [] :=
  rfl

theorem hexFold_length (bs : List Nat) :
    (bs.foldr (fun b acc => hexDigit (b / 16) :: hexDigit (b % 16) :: acc)
      []).length = 2 * bs.length := by
  induction bs with
  | nil => rfl
  | cons b t ih => simp only [List.foldr_cons, List.length_cons, ih]; omega

theorem hex_encode_length (bs : List Nat) :
    (hex_encode bs).length = 2 * bs.length :=
  hexFold_length bs

theorem hexDigit_mem_of_lt (n : Nat) (h : n < 16) :
    hexDigit n ∈ "0123456789abcdef".data := by
  interval_cases n <;> decide

theorem hex_encode_mem (bs : List Nat) (hb : ∀ b ∈ bs, b < 256) :
    ∀ c ∈ (hex_encode bs).data, c ∈ "0123456789abcdef".data := by
  induction bs with
  | nil => intro c hc; cases hc
  | cons b t ih =>
    intro c hc
    rw [hex_encode_data, List.foldr_cons] at hc
    have hblt : b < 256 := hb b (by simp)
    rcases List.mem_cons.1 hc with hc | hc
    · exact hc ▸ hexDigit_mem_of_lt _ (by omega)
    rcases List.mem_cons.1 hc with hc | hc
    · exact hc ▸ hexDigit_mem_of_lt _ (by omega)
    · refine ih (fun x hx => hb x (by simp [hx])) c ?_
      rw [hex_encode_data]
      exact hc

/-- C8: `get_machine_fingerprint` is a pure function of the collected
hardware identifiers — two invocations over the same identifiers return
byte-identical strings — and, since SHA-256 yields 32 bytes, the result
of hex-encoding is exactly 64 characters, each a lowercase hexadecimal
digit; the digest is taken over the `|`-joined raw identifiers. -/
theorem C8_fingerprint_deterministic_64_hex :
    ∀ (sha256 : List Nat → List Nat) (ids : List (List Nat)),
      (sha256 (collect_raw_identifiers ids)).length = 32 →
      (∀ b ∈ sha256 (collect_raw_identifiers ids), b < 256) →
      get_machine_fingerprint sha256 ids = get_machine_fingerprint sha256 ids ∧
      (get_machine_fingerprint sha256 ids).length = 64 ∧
      ∀ c ∈ (get_machine_fingerprint sha256 ids).data,
        c ∈ "0123456789abcdef".data := by
  intro sha256 ids hlen hbytes
  refine ⟨rfl, ?_, ?_⟩
  · rw [get_machine_fingerprint, hex_encode_length, hlen]
  · exact hex_encode_mem _ hbytes

/-- Witness for C8 with a concrete 32-byte digest oracle. -/
theorem C8_fingerprint_deterministic_64_hex_witness :
    (get_machine_fingerprint (fun _ => List.replicate 32 255) []).length = 64 ∧
    ∀ c ∈ (get_machine_fingerprint (fun _ => List.replicate 32 255) []).data,
      c ∈ "0123456789abcdef".data := by
  have h := C8_fingerprint_deterministic_64_hex (fun _ => List.replicate 32 255) []
    (by decide) (by decide)
  exact ⟨h.2.1, h.2.2⟩

/-! ## Inversion lemmas for `splitn2` and `verify_license_blob` -/

theorem notDot_of_ne {c : Nat} (h : c ≠ 46) : notDot c = true := by
  simp [notDot, h]

theorem takeWhile_dropWhile_split (B : List Nat) (h : 46 ∈ B) :
    B = B.takeWhile notDot ++ 46 :: (B.dropWhile notDot).tail
    ∧ 46 ∉ B.takeWhile notDot := by
  induction B with
  | nil => cases h
  | cons c t ih =>
    by_cases hc : c = 46
    · subst hc
      refine ⟨?_, ?_⟩ <;>
        simp [List.takeWhile_cons, List.dropWhile_cons, notDot]
    · have ht : 46 ∈ t := by
        rcases List.mem_cons.1 h with h1 | h1
        · exact absurd h1.symm hc
        · exact h1
      obtain ⟨ih1, ih2⟩ := ih ht
      refine ⟨?_, ?_⟩
      · simp only [List.takeWhile_cons, List.dropWhile_cons, notDot_of_ne hc,
          if_pos, List.cons_append]
        exact congrArg (c :: ·) ih1
      · simp only [List.takeWhile_cons, notDot_of_ne hc, if_pos]
        intro hmem
        rcases List.mem_cons.1 hmem with h1 | h1
        · exact hc h1.symm
        · exact ih2 h1

theorem splitn2_eq_pair {B p s : List Nat} (h : splitn2 B = [p, s]) :
    B = p ++ 46 :: s ∧ 46 ∉ p := by
  unfold splitn2 at h
  by_cases hm : 46 ∈ B
  · rw [if_pos hm] at h
    obtain ⟨h1, h2⟩ := takeWhile_dropWhile_split B hm
    injection h with hp hrest
    injection hrest with hs _
    subst hp
    constructor
    · rw [← hs]; exact h1
    · exact h2
  · rw [if_neg hm] at h
    injection h with _ hrest
    cases hrest

theorem takeWhile_append_sep (p s : List Nat) (hp : 46 ∉ p) :
    (p ++ 46 :: s).takeWhile notDot = p ∧
    (p ++ 46 :: s).dropWhile notDot = 46 :: s := by
  induction p with
  | nil => simp [List.takeWhile_cons, List.dropWhile_cons, notDot]
  | cons c t ih =>
    have hc : c ≠ 46 := fun h => hp (h ▸ List.mem_cons_self c t)
    have ht : 46 ∉ t := fun h => hp (List.mem_cons_of_mem c h)
    obtain ⟨ih1, ih2⟩ := ih ht
    constructor
    · simp only [List.cons_append, List.takeWhile_cons, notDot_of_ne hc, if_pos]
      exact congrArg (c :: ·) ih1
    · simp only [List.cons_append, List.dropWhile_cons, notDot_of_ne hc, if_pos]
      exact ih2

theorem splitn2_of_not_mem (p s : List Nat) (hp : 46 ∉ p) :
    splitn2 (p ++ 46 :: s) = [p, s] := by
  have hm : 46 ∈ p ++ 46 :: s := List.mem_append_right _ (List.mem_cons_self _ _)
  obtain ⟨h1, h2⟩ := takeWhile_append_sep p s hp
  unfold splitn2
  rw [if_pos hm, h1, h2]
  rfl

/-- The embedded public-key constant decodes to 32 bytes. -/
theorem pubKey_decodes : ∃ pk, decodeB64 pubKeyB64 = some pk ∧ pk.length = 32 := by
  refine ⟨_, rfl, ?_⟩
  decide

/-- Inversion of a successful `verifyParts`. -/
theorem verifyParts_ok_inv {E : Ext} {now : Int} {P S : List Nat}
    {pay : LicensePayload} (h : verifyParts E now P S = .ok pay) :
    ∃ pb sb,
      decodeB64 P = some pb ∧ decodeB64 S = some sb ∧ sb.length = 64 ∧
      E.keyValid = true ∧ E.verify pb sb = true ∧
      E.parsePayload pb = some pay ∧ is_expired E now pay = false := by
  unfold verifyParts at h
  cases hdp : decodeB64 P with
  | none => simp only [hdp] at h; exact Except.noConfusion h
  | some pb =>
    simp only [hdp] at h
    cases hds : decodeB64 S with
    | none => simp only [hds] at h; exact Except.noConfusion h
    | some sb =>
      simp only [hds] at h
      obtain ⟨pk, hpk, hpklen⟩ := pubKey_decodes
      simp only [hpk] at h
      rw [if_neg (show ¬ pk.length ≠ 32 by omega)] at h
      by_cases hkey : E.keyValid
      · rw [if_neg (show ¬¬ E.keyValid = true by simp [hkey])] at h
        by_cases hslen : sb.length = 64
        · rw [if_neg (show ¬ sb.length ≠ 64 by omega)] at h
          by_cases hv : E.verify pb sb
          · rw [if_neg (show ¬¬ E.verify pb sb = true by simp [hv])] at h
            cases hpp : E.parsePayload pb with
            | none => simp only [hpp] at h; exact Except.noConfusion h
            | some pay2 =>
              simp only [hpp] at h
              by_cases hexp : is_expired E now pay2
              · rw [if_pos hexp] at h; cases h
              · rw [if_neg hexp] at h
                injection h with hpay
                subst hpay
                exact ⟨pb, sb, rfl, rfl, hslen, by simp [hkey],
                  by simp [hv], hpp, by simp [hexp]⟩
          · rw [if_pos (show ¬ E.verify pb sb = true by simp [hv])] at h
            cases h
        · rw [if_pos (show sb.length ≠ 64 by omega)] at h; cases h
      · rw [if_pos (show ¬ E.keyValid = true by simp [hkey])] at h; cases h

/-- Inversion of a successful `verify_license_blob`: the blob splits into
two base64 segments whose decodings pass the signature and payload
checks, and the payload is not expired. -/
theorem verify_ok_inv {E : Ext} {now : Int} {blob : List Nat}
    {pay : LicensePayload} (h : verify_license_blob E now blob = .ok pay) :
    ∃ P S pb sb, blob = P ++ 46 :: S ∧ 46 ∉ P ∧
      decodeB64 P = some pb ∧ decodeB64 S = some sb ∧ sb.length = 64 ∧
      E.keyValid = true ∧ E.verify pb sb = true ∧
      E.parsePayload pb = some pay ∧ is_expired E now pay = false := by
  unfold verify_license_blob at h
  cases hsplit : splitn2 blob with
  | nil => rw [hsplit] at h; cases h
  | cons p rest =>
    cases rest with
    | nil => rw [hsplit] at h; cases h
    | cons s rest2 =>
      cases rest2 with
      | nil =>
        rw [hsplit] at h
        obtain ⟨hB, hP46⟩ := splitn2_eq_pair hsplit
        obtain ⟨pb, sb, h1, h2, h3, h4, h5, h6, h7⟩ := verifyParts_ok_inv h
        exact ⟨p, s, pb, sb, hB, hP46, h1, h2, h3, h4, h5, h6, h7⟩
      | cons _ _ => rw [hsplit] at h; cases h

/-- Forward computation of `verifyParts` on a well-formed pair of
segments: with both decoding, the key valid, a 64-byte signature that
verifies and a payload that parses, the result is decided by expiry. -/
theorem verifyParts_computes {E : Ext} {now : Int} {P S pb sb : List Nat}
    {pay : LicensePayload}
    (hdp : decodeB64 P = some pb) (hds : decodeB64 S = some sb)
    (hslen : sb.length = 64) (hkey : E.keyValid = true)
    (hv : E.verify pb sb = true) (hpp : E.parsePayload pb = some pay) :
    verifyParts E now P S =
      if is_expired E now pay then .error (.expired pay.expires)
      else .ok pay := by
  obtain ⟨pk, hpk, hpklen⟩ := pubKey_decodes
  unfold verifyParts
  simp only [hdp, hds, hpk, hpp]
  rw [if_neg (show ¬ pk.length ≠ 32 by omega),
    if_neg (show ¬¬ E.keyValid = true by simp [hkey]),
    if_neg (show ¬ sb.length ≠ 64 by omega),
    if_neg (show ¬¬ E.verify pb sb = true by simp [hv])]

/-- Forward computation of `verify_license_blob` on a well-formed blob. -/
theorem verify_computes {E : Ext} {now : Int} {P S pb sb : List Nat}
    {pay : LicensePayload} (hP46 : 46 ∉ P)
    (hdp : decodeB64 P = some pb) (hds : decodeB64 S = some sb)
    (hslen : sb.length = 64) (hkey : E.keyValid = true)
    (hv : E.verify pb sb = true) (hpp : E.parsePayload pb = some pay) :
    verify_license_blob E now (P ++ 46 :: S) =
      if is_expired E now pay then .error (.expired pay.expires)
      else .ok pay := by
  unfold verify_license_blob
  rw [splitn2_of_not_mem P S hP46]
  exact verifyParts_computes hdp hds hslen hkey hv hpp

/-! ## Claim C7 -/

/-- C7: for every license blob whose signature verifies and whose
payload parses (with a parsable expiry timestamp `e`),
`verify_license_blob` returns the `Expired` error exactly when `e` is
strictly before the current time, and returns the payload otherwise — so
an expiry one second in the past is rejected as expired and an expiry
one second in the future is not. -/
theorem C7_expiry_strictly_before_now :
    ∀ (E : Ext) (now : Int) (P S pb sb : List Nat) (pay : LicensePayload)
      (e : Int),
      46 ∉ P →
      decodeB64 P = some pb → decodeB64 S = some sb → sb.length = 64 →
      E.keyValid = true → E.verify pb sb = true →
      E.parsePayload pb = some pay → E.parseDate pay.expires = some e →
      ((verify_license_blob E now (P ++ 46 :: S) =
          .error (.expired pay.expires) ↔ e < now) ∧
        (now ≤ e → verify_license_blob E now (P ++ 46 :: S) = .ok pay)) := by
  intro E now P S pb sb pay e hP46 hdp hds hslen hkey hv hpp hdate
  have hcomp := @verify_computes E now P S pb sb pay hP46 hdp hds hslen hkey hv hpp
  have hie : is_expired E now pay = decide (e < now) := by
    unfold is_expired
    rw [hdate]
  constructor
  · constructor
    · intro h
      by_contra hlt
      rw [hcomp, hie, decide_eq_false hlt, if_neg (by simp)] at h
      exact Except.noConfusion h
    · intro hlt
      rw [hcomp, hie, decide_eq_true hlt, if_pos rfl]
  · intro hle
    have hlt : ¬ e < now := by omega
    rw [hcomp, hie, decide_eq_false hlt, if_neg (by simp)]

/-- Witness for C7: a concrete blob (payload segment `AA==`, signature
segment encoding 64 zero bytes) with accepting oracles; with expiry one
second before `now = 10` the result is the expired error, and with
expiry one second after it is the payload. -/
theorem C7_expiry_strictly_before_now_witness :
    verify_license_blob
      ⟨fun _ _ => true, true,
        fun _ => some ⟨"e", "p", 1, "M", "i", "X", 1⟩, fun _ => some 9⟩ 10
      ([65, 65, 61, 61] ++ 46 :: (List.replicate 84 65 ++ [65, 65, 61, 61])) =
      .error (.expired "X") ∧
    verify_license_blob
      ⟨fun _ _ => true, true,
        fun _ => some ⟨"e", "p", 1, "M", "i", "X", 1⟩, fun _ => some 11⟩ 10
      ([65, 65, 61, 61] ++ 46 :: (List.replicate 84 65 ++ [65, 65, 61, 61])) =
      .ok ⟨"e", "p", 1, "M", "i", "X", 1⟩ := by
  constructor
  · exact (C7_expiry_strictly_before_now
      ⟨fun _ _ => true, true, fun _ => some ⟨"e", "p", 1, "M", "i", "X", 1⟩,
        fun _ => some 9⟩ 10
      [65, 65, 61, 61] (List.replicate 84 65 ++ [65, 65, 61, 61])
      [0] (List.replicate 64 0) ⟨"e", "p", 1, "M", "i", "X", 1⟩ 9
      (by decide) (by decide) (by decide) (by decide) rfl rfl rfl rfl).1.mpr
      (by decide)
  · exact (C7_expiry_strictly_before_now
      ⟨fun _ _ => true, true, fun _ => some ⟨"e", "p", 1, "M", "i", "X", 1⟩,
        fun _ => some 11⟩ 10
      [65, 65, 61, 61] (List.replicate 84 65 ++ [65, 65, 61, 61])
      [0] (List.replicate 64 0) ⟨"e", "p", 1, "M", "i", "X", 1⟩ 11
      (by decide) (by decide) (by decide) (by decide) rfl rfl rfl rfl).2
      (by decide)

/-! ## Claim C1 -/

/-- C1 counterexample: a stored license that verifies, bound to the
caller's machine, with expiry one second in the future (`now = 0`,
`expiry = 1`).  `validate_for_machine` reports `days_remaining = 0`
(chrono `num_days` truncates), while the ceiling of (expiry − now) in
days is 1 — so the claimed ceiling semantics is false. -/
theorem C1_days_remaining_counterexample :
    validate_for_machine
      ⟨fun _ _ => true, true,
        fun _ => some ⟨"e", "p", 1, "M", "i", "X", 1⟩, fun _ => some 1⟩ 0
      (some ([65, 65, 61, 61] ++ 46 ::
        (List.replicate 84 65 ++ [65, 65, 61, 61]))) "M" =
      { valid := true, payload := some ⟨"e", "p", 1, "M", "i", "X", 1⟩,
        error := none, days_remaining := some 0 } ∧
    ceilDays (1 - 0) = 1 ∧ (0 : Int) ≠ ceilDays (1 - 0) := by
  refine ⟨by decide, by decide, by decide⟩

/-- C1 (amended): for every stored license blob that verifies
successfully, whose expiry parses to `e`, and whose machine id equals the
caller's fingerprint, `validate_for_machine` returns a valid status whose
`days_remaining` is the *floor* (truncation) of (expiry − now) in days,
and this value is always ≥ 0 since expired licenses were already
rejected during verification. -/
theorem C1_days_remaining_floor_nonneg :
    ∀ (E : Ext) (now : Int) (content : List Nat) (pay : LicensePayload)
      (e : Int) (fp : String),
      verify_license_blob E now (trimAscii content) = .ok pay →
      E.parseDate pay.expires = some e →
      pay.machine_id = fp →
      validate_for_machine E now (some content) fp =
        { valid := true, payload := some pay, error := none,
          days_remaining := some (Int.tdiv (e - now) 86400) } ∧
      0 ≤ Int.tdiv (e - now) 86400 := by
  intro E now content pay e fp hok hdate hmid
  have hdays : days_remaining E now pay = Int.tdiv (e - now) 86400 := by
    unfold days_remaining
    rw [hdate]
  have hstatus : validate_stored_license E now (some content) =
      { valid := true, payload := some pay, error := none,
        days_remaining := some (Int.tdiv (e - now) 86400) } := by
    unfold validate_stored_license read_license_file
    simp only [Option.map_some', hok, hdays]
  constructor
  · unfold validate_for_machine
    rw [hstatus]
    unfold machineGate
    simp [hmid]
  · obtain ⟨_, _, _, _, _, _, _, _, _, _, _, _, hexp⟩ := verify_ok_inv hok
    have hpay : ¬ e < now := by
      unfold is_expired at hexp
      rw [hdate] at hexp
      simpa using hexp
    exact Int.tdiv_nonneg (by omega) (by omega)

/-- Witness for C1: the counterexample state seen through the amended
theorem — floor of one second in days is 0 and is nonnegative. -/
theorem C1_days_remaining_floor_nonneg_witness :
    validate_for_machine
      ⟨fun _ _ => true, true,
        fun _ => some ⟨"e", "p", 1, "M", "i", "X", 1⟩, fun _ => some 1⟩ 0
      (some ([65, 65, 61, 61] ++ 46 ::
        (List.replicate 84 65 ++ [65, 65, 61, 61]))) "M" =
      { valid := true, payload := some ⟨"e", "p", 1, "M", "i", "X", 1⟩,
        error := none, days_remaining := some (Int.tdiv (1 - 0) 86400) } ∧
    (0 : Int) ≤ Int.tdiv (1 - 0) 86400 :=
  C1_days_remaining_floor_nonneg
    ⟨fun _ _ => true, true,
      fun _ => some ⟨"e", "p", 1, "M", "i", "X", 1⟩, fun _ => some 1⟩ 0
    ([65, 65, 61, 61] ++ 46 :: (List.replicate 84 65 ++ [65, 65, 61, 61]))
    ⟨"e", "p", 1, "M", "i", "X", 1⟩ 1 "M" rfl rfl rfl

/-! ## Helper lemmas for the update pipeline -/

theorem launch_installer_effects (spawnOk : String → Bool) (p : String) :
    (launch_installer spawnOk p).2 = [.launched p] := by
  unfold launch_installer
  split <;> rfl

theorem extract_fold_writes (entries : List ZipEntry) :
    ∀ (acc : List Effect × Option (String × List Nat)),
      (∀ e ∈ acc.1, ∃ n d, e = Effect.wrote n d) →
      ∀ e ∈ (entries.foldl extractStep acc).1, ∃ n d, e = Effect.wrote n d := by
  induction entries with
  | nil => intro acc h; exact h
  | cons z rest ih =>
    intro acc h
    simp only [List.foldl_cons]
    apply ih
    unfold extractStep
    split
    · exact h
    · intro e he
      rcases List.mem_append.1 he with he | he
      · exact h e he
      · exact ⟨z.name, z.data, List.mem_singleton.1 he⟩

theorem extractEntries_writes_only (entries : List ZipEntry) :
    ∀ e ∈ (extractEntries entries).1, ∃ n d, e = Effect.wrote n d :=
  extract_fold_writes entries ([], none) (by intro e he; cases he)

theorem launched_not_in_extract {entries : List ZipEntry} {p : String}
    (h : Effect.launched p ∈ (extractEntries entries).1) : False := by
  obtain ⟨n, d, hw⟩ := extractEntries_writes_only entries _ h
  cases hw

/-- A spawn attempt during `install_offline_package` implies the staged
installer's digest matched the (lowercased) manifest digest. -/
theorem install_launched_inv {U : UpdExt} {spawnOk : String → Bool}
    {cur : String} {entries : List ZipEntry} {p : String}
    (h : Effect.launched p ∈
      (install_offline_package U spawnOk cur (.archive entries)).2) :
    ∃ meta name data, readManifestEntry U entries = .ok meta ∧
      (extractEntries entries).2 = some (name, data) ∧
      U.sha256hex data = toLowerAscii meta.sha256 ∧ p = name := by
  unfold install_offline_package at h
  cases hm : readManifestEntry U entries with
  | error e => simp only [hm] at h; cases h
  | ok meta =>
    simp only [hm] at h
    cases hx : (extractEntries entries).2 with
    | none =>
      simp only [hx] at h
      exact absurd h (fun hh => launched_not_in_extract hh)
    | some nd =>
      obtain ⟨name, data⟩ := nd
      simp only [hx] at h
      by_cases hd : U.sha256hex data ≠ toLowerAscii meta.sha256
      · rw [if_pos hd] at h
        exact absurd h (fun hh => launched_not_in_extract hh)
      · rw [if_neg hd] at h
        rw [launch_installer_effects] at h
        rcases List.mem_append.1 h with h | h
        · exact absurd h (fun hh => launched_not_in_extract hh)
        · have heq := List.mem_singleton.1 h
          injection heq with hp
          exact ⟨meta, name, data, rfl, rfl, by push_neg at hd; exact hd, hp⟩

/-- On a digest mismatch the offline install fails and stops after the
extraction writes. -/
theorem install_digest_mismatch {U : UpdExt} {spawnOk : String → Bool}
    {cur : String} {entries : List ZipEntry} {meta : OfflinePackageMeta}
    {name : String} {data : List Nat}
    (hm : readManifestEntry U entries = .ok meta)
    (hx : (extractEntries entries).2 = some (name, data))
    (hd : U.sha256hex data ≠ toLowerAscii meta.sha256) :
    install_offline_package U spawnOk cur (.archive entries) =
      ({ success := false, message := "Integrity check failed",
         needs_restart := false }, (extractEntries entries).1) := by
  unfold install_offline_package
  simp only [hm, hx]
  rw [if_pos hd]

theorem download_file_some (sha256hex : List Nat → String)
    (dest expected : String) (bytes : List Nat) :
    download_file sha256hex dest expected (.response true (some bytes)) =
      if sha256hex bytes ≠ toLowerAscii expected then
        (.error "SHA-256 mismatch", [])
      else (.ok (), [.wrote dest bytes]) := rfl

/-- A spawn attempt during `download_and_install` implies the received
bytes digested to the (lowercased) manifest digest. -/
theorem dl_launched_inv {sha256hex : List Nat → String}
    {spawnOk : String → Bool} {manifest : UpdateManifest}
    {resp : NetResp (List Nat)} {p : String}
    (h : Effect.launched p ∈
      (download_and_install sha256hex spawnOk manifest resp).2) :
    ∃ bytes, resp = .response true (some bytes) ∧
      sha256hex bytes = toLowerAscii manifest.sha256 ∧
      p = urlFilename manifest.url := by
  cases resp with
  | fail => cases h
  | response ok body =>
    cases ok with
    | false => cases h
    | true =>
      cases body with
      | none => cases h
      | some bytes =>
        by_cases hd : sha256hex bytes ≠ toLowerAscii manifest.sha256
        · have h2 : download_and_install sha256hex spawnOk manifest
              (.response true (some bytes)) =
              ({ success := false,
                 message := "Download failed: " ++ "SHA-256 mismatch",
                 needs_restart := false }, []) := by
            unfold download_and_install
            rw [download_file_some, if_pos hd]
          rw [h2] at h
          cases h
        · have h2 : download_and_install sha256hex spawnOk manifest
              (.response true (some bytes)) =
              ((launch_installer spawnOk (urlFilename manifest.url)).1,
                [Effect.wrote (urlFilename manifest.url) bytes] ++
                  (launch_installer spawnOk (urlFilename manifest.url)).2) := by
            unfold download_and_install
            rw [download_file_some, if_neg hd]
          rw [h2, launch_installer_effects] at h
          rcases List.mem_append.1 h with h | h
          · have := List.mem_singleton.1 h
            cases this
          · have heq := List.mem_singleton.1 h
            injection heq with hp
            exact ⟨bytes, rfl, by push_neg at hd; exact hd, hp⟩

/-- On a digest mismatch the online path fails before writing or
launching anything. -/
theorem dl_digest_mismatch {sha256hex : List Nat → String}
    {spawnOk : String → Bool} {manifest : UpdateManifest} {bytes : List Nat}
    (hd : sha256hex bytes ≠ toLowerAscii manifest.sha256) :
    (download_and_install sha256hex spawnOk manifest
      (.response true (some bytes))).1.success = false ∧
    (download_and_install sha256hex spawnOk manifest
      (.response true (some bytes))).2 = [] := by
  have h2 : download_and_install sha256hex spawnOk manifest
      (.response true (some bytes)) =
      ({ success := false, message := "Download failed: " ++ "SHA-256 mismatch",
         needs_restart := false }, []) := by
    unfold download_and_install
    rw [download_file_some, if_pos hd]
  rw [h2]
  exact ⟨rfl, rfl⟩

/-! ## Claim C4 -/

/-- C4 counterexample: an offline package declaring a version equal to
the current version (`1.0.0` over `1.0.0`, not newer) is *not* rejected
by `install_offline_package`: the installer entry is extracted and, its
digest matching, launched — the claimed version check before extraction
does not happen on the install path (it lives in
`read_offline_package`). -/
theorem C4_install_skips_version_check_counterexample :
    install_offline_package
      ⟨fun _ => some "m", fun _ => some ⟨"1.0.0", "aa", "n", "d", "w"⟩,
        fun _ => "aa"⟩ (fun _ => true) "1.0.0"
      (.archive [⟨"manifest.json", false, [1]⟩, ⟨"setup.exe", false, [2]⟩]) =
      ({ success := true,
         message := "Update installer launched. The app will restart.",
         needs_restart := true },
       [.wrote "setup.exe" [2], .launched "setup.exe"]) ∧
    is_newer_version "1.0.0" "1.0.0" = false := by
  constructor
  · rfl
  · have h : parseVersion "1.0.0" = [1, 0, 0] := by decide
    simp [is_newer_version, h, cmpComponents]

/-- C4 (amended): the not-newer rejection happens in
`read_offline_package` — which opens the container, reads the metadata
and rejects a not-strictly-newer declared version before returning, and
never extracts anything — while `install_offline_package` performs
open → read metadata → extract → digest → launch-on-match with *no*
version comparison at all (its result is independent of the current
version). -/
theorem C4_offline_version_gate_location :
    (∀ (U : UpdExt) (cur : String) (src : PackageSrc)
      (meta : OfflinePackageMeta),
      read_offline_package U cur src = .ok meta →
      is_newer_version cur meta.version = true) ∧
    (∀ (U : UpdExt) (spawnOk : String → Bool) (cur cur2 : String)
      (src : PackageSrc),
      install_offline_package U spawnOk cur src =
        install_offline_package U spawnOk cur2 src) ∧
    (∀ (U : UpdExt) (spawnOk : String → Bool) (cur : String)
      (entries : List ZipEntry) (p : String),
      Effect.launched p ∈
        (install_offline_package U spawnOk cur (.archive entries)).2 →
      ∃ meta name data, readManifestEntry U entries = .ok meta ∧
        (extractEntries entries).2 = some (name, data) ∧
        U.sha256hex data = toLowerAscii meta.sha256 ∧ p = name) := by
  refine ⟨?_, ?_, ?_⟩
  · intro U cur src meta h
    cases src with
    | notFound => cases h
    | badZip => cases h
    | archive entries =>
      unfold read_offline_package at h
      cases hm : readManifestEntry U entries with
      | error e => simp only [hm] at h; exact Except.noConfusion h
      | ok m =>
        simp only [hm] at h
        by_cases hn : is_newer_version cur m.version
        · rw [if_neg (show ¬¬ is_newer_version cur m.version = true by
            simp [hn])] at h
          injection h with hh
          subst hh
          exact hn
        · rw [if_pos (show ¬ is_newer_version cur m.version = true by
            simp [hn])] at h
          exact Except.noConfusion h
  · intro U spawnOk cur cur2 src
    rfl
  · intro U spawnOk cur entries p h
    exact install_launched_inv h

/-- Witness for C4: the version-independence of
`install_offline_package` at the counterexample package, a concrete
launch inverted to its digest match, and the not-newer rejection of
`read_offline_package` exercised on a `2.0.0`-over-`1.0.0` package. -/
theorem C4_offline_version_gate_location_witness :
    install_offline_package
      ⟨fun _ => some "m", fun _ => some ⟨"1.0.0", "aa", "n", "d", "w"⟩,
        fun _ => "aa"⟩ (fun _ => true) "1.0.0"
      (.archive [⟨"manifest.json", false, [1]⟩, ⟨"setup.exe", false, [2]⟩]) =
    install_offline_package
      ⟨fun _ => some "m", fun _ => some ⟨"1.0.0", "aa", "n", "d", "w"⟩,
        fun _ => "aa"⟩ (fun _ => true) "9.9.9"
      (.archive [⟨"manifest.json", false, [1]⟩, ⟨"setup.exe", false, [2]⟩]) ∧
    (∃ meta name data,
      readManifestEntry
        ⟨fun _ => some "m", fun _ => some ⟨"1.0.0", "aa", "n", "d", "w"⟩,
          fun _ => "aa"⟩
        [⟨"manifest.json", false, [1]⟩, ⟨"setup.exe", false, [2]⟩] = .ok meta ∧
      (extractEntries
        [⟨"manifest.json", false, [1]⟩, ⟨"setup.exe", false, [2]⟩]).2 =
        some (name, data) ∧
      (fun (_ : List Nat) => "aa") data = toLowerAscii meta.sha256 ∧
      "setup.exe" = name) ∧
    is_newer_version "1.0.0" "2.0.0" = true := by
  refine ⟨?_, ?_, ?_⟩
  · exact C4_offline_version_gate_location.2.1
      ⟨fun _ => some "m", fun _ => some ⟨"1.0.0", "aa", "n", "d", "w"⟩,
        fun _ => "aa"⟩ (fun _ => true) "1.0.0" "9.9.9"
      (.archive [⟨"manifest.json", false, [1]⟩, ⟨"setup.exe", false, [2]⟩])
  · exact C4_offline_version_gate_location.2.2
      ⟨fun _ => some "m", fun _ => some ⟨"1.0.0", "aa", "n", "d", "w"⟩,
        fun _ => "aa"⟩ (fun _ => true) "1.0.0"
      [⟨"manifest.json", false, [1]⟩, ⟨"setup.exe", false, [2]⟩]
      "setup.exe" (by decide)
  · have hn : is_newer_version "1.0.0" "2.0.0" = true := by
      have h1 : parseVersion "1.0.0" = [1, 0, 0] := by decide
      have h2 : parseVersion "2.0.0" = [2, 0, 0] := by decide
      simp [is_newer_version, h1, h2, cmpComponents]
    exact C4_offline_version_gate_location.1
      ⟨fun _ => some "m", fun _ => some ⟨"2.0.0", "aa", "n", "d", "w"⟩,
        fun _ => "aa"⟩ "1.0.0"
      (.archive [⟨"manifest.json", false, [1]⟩, ⟨"setup.exe", false, [2]⟩])
      ⟨"2.0.0", "aa", "n", "d", "w"⟩
      (by unfold read_offline_package readManifestEntry
          simp [hn])

/-! ## Claim C5 -/

/-- C5: in both the online and the offline path, a spawn of the
installer implies the SHA-256 hex digest of the installer bytes equalled
the declared digest (the source compares against the lowercased declared
hex string); on a digest mismatch the attempt returns a failure result
and produces no spawn attempt (online: nothing at all is written
either). -/
theorem C5_digest_is_final_gate :
    (∀ (sha256hex : List Nat → String) (spawnOk : String → Bool)
      (manifest : UpdateManifest) (resp : NetResp (List Nat)) (p : String),
      Effect.launched p ∈
        (download_and_install sha256hex spawnOk manifest resp).2 →
      ∃ bytes, resp = .response true (some bytes) ∧
        sha256hex bytes = toLowerAscii manifest.sha256) ∧
    (∀ (sha256hex : List Nat → String) (spawnOk : String → Bool)
      (manifest : UpdateManifest) (bytes : List Nat),
      sha256hex bytes ≠ toLowerAscii manifest.sha256 →
      (download_and_install sha256hex spawnOk manifest
        (.response true (some bytes))).1.success = false ∧
      (download_and_install sha256hex spawnOk manifest
        (.response true (some bytes))).2 = []) ∧
    (∀ (U : UpdExt) (spawnOk : String → Bool) (cur : String)
      (entries : List ZipEntry) (p : String),
      Effect.launched p ∈
        (install_offline_package U spawnOk cur (.archive entries)).2 →
      ∃ meta data, readManifestEntry U entries = .ok meta ∧
        U.sha256hex data = toLowerAscii meta.sha256 ∧
        (extractEntries entries).2 = some (p, data)) ∧
    (∀ (U : UpdExt) (spawnOk : String → Bool) (cur : String)
      (entries : List ZipEntry) (meta : OfflinePackageMeta)
      (name : String) (data : List Nat),
      readManifestEntry U entries = .ok meta →
      (extractEntries entries).2 = some (name, data) →
      U.sha256hex data ≠ toLowerAscii meta.sha256 →
      (install_offline_package U spawnOk cur (.archive entries)).1.success
        = false ∧
      ∀ q, Effect.launched q ∉
        (install_offline_package U spawnOk cur (.archive entries)).2) := by
  refine ⟨?_, ?_, ?_, ?_⟩
  · intro sha256hex spawnOk manifest resp p h
    obtain ⟨bytes, h1, h2, _⟩ := dl_launched_inv h
    exact ⟨bytes, h1, h2⟩
  · intro sha256hex spawnOk manifest bytes hd
    exact dl_digest_mismatch hd
  · intro U spawnOk cur entries p h
    obtain ⟨meta, name, data, h1, h2, h3, h4⟩ := install_launched_inv h
    exact ⟨meta, data, h1, h3, h4 ▸ h2⟩
  · intro U spawnOk cur entries meta name data hm hx hd
    rw [install_digest_mismatch hm hx hd]
    exact ⟨rfl, fun q hq => launched_not_in_extract hq⟩

/-- Witness for C5: concrete digest mismatches in both paths produce
failure results with no spawn, and a concrete offline launch inverts to
its digest match. -/
theorem C5_digest_is_final_gate_witness :
    (download_and_install (fun _ => "bb") (fun _ => true)
      ⟨"2.0.0", "n", "d", "http://u/x.exe", "aa", 1, false⟩
      (.response true (some [7]))).1.success = false ∧
    (download_and_install (fun _ => "bb") (fun _ => true)
      ⟨"2.0.0", "n", "d", "http://u/x.exe", "aa", 1, false⟩
      (.response true (some [7]))).2 = [] ∧
    (install_offline_package
      ⟨fun _ => some "m", fun _ => some ⟨"2.0.0", "aa", "n", "d", "w"⟩,
        fun _ => "bb"⟩ (fun _ => true) "1.0.0"
      (.archive [⟨"manifest.json", false, [1]⟩,
        ⟨"setup.exe", false, [2]⟩])).1.success = false ∧
    (∃ meta data,
      readManifestEntry
        ⟨fun _ => some "m", fun _ => some ⟨"1.0.0", "aa", "n", "d", "w"⟩,
          fun _ => "aa"⟩
        [⟨"manifest.json", false, [1]⟩, ⟨"setup.exe", false, [2]⟩] =
        .ok meta ∧
      (fun (_ : List Nat) => "aa") data = toLowerAscii meta.sha256 ∧
      (extractEntries
        [⟨"manifest.json", false, [1]⟩, ⟨"setup.exe", false, [2]⟩]).2 =
        some ("setup.exe", data)) := by
  have hdl := C5_digest_is_final_gate.2.1 (fun _ => "bb") (fun _ => true)
    ⟨"2.0.0", "n", "d", "http://u/x.exe", "aa", 1, false⟩ [7] (by decide)
  have hoff := C5_digest_is_final_gate.2.2.2
    ⟨fun _ => some "m", fun _ => some ⟨"2.0.0", "aa", "n", "d", "w"⟩,
      fun _ => "bb"⟩ (fun _ => true) "1.0.0"
    [⟨"manifest.json", false, [1]⟩, ⟨"setup.exe", false, [2]⟩]
    ⟨"2.0.0", "aa", "n", "d", "w"⟩ "setup.exe" [2] rfl rfl (by decide)
  have hinv := C5_digest_is_final_gate.2.2.1
    ⟨fun _ => some "m", fun _ => some ⟨"1.0.0", "aa", "n", "d", "w"⟩,
      fun _ => "aa"⟩ (fun _ => true) "1.0.0"
    [⟨"manifest.json", false, [1]⟩, ⟨"setup.exe", false, [2]⟩]
    "setup.exe" (by decide)
  exact ⟨hdl.1, hdl.2, hoff.1, hinv⟩

/-! ## Base64 round-trip: decoding is a section of canonical encoding -/

theorem b64val_some {c v : Nat} (h : b64val c = some v) :
    v < 64 ∧ b64chr v = c := by
  unfold b64val at h
  split_ifs at h with h1 h2 h3 h4 h5 <;> injection h with hv <;> subst hv <;>
    unfold b64chr <;> refine ⟨by omega, ?_⟩ <;> split_ifs <;> omega

theorem decode_encode : ∀ (s b : List Nat),
    decodeGroups s = some b → encodeGroups b = s
  | [], b, h => by
    unfold decodeGroups at h
    injection h with hb
    subst hb
    rfl
  | [_], _, h => by exact Option.noConfusion h
  | [_, _], _, h => by exact Option.noConfusion h
  | [_, _, _], _, h => by exact Option.noConfusion h
  | c0 :: c1 :: c2 :: c3 :: rest, b, h => by
    unfold decodeGroups at h
    cases h0 : b64val c0 with
    | none => simp only [h0] at h; exact Option.noConfusion h
    | some v0 =>
      simp only [h0] at h
      cases h1 : b64val c1 with
      | none => simp only [h1] at h; exact Option.noConfusion h
      | some v1 =>
        simp only [h1] at h
        obtain ⟨hv0, hc0⟩ := b64val_some h0
        obtain ⟨hv1, hc1⟩ := b64val_some h1
        by_cases hc2 : c2 = 61
        · rw [if_pos hc2] at h
          by_cases hpad : c3 = 61 ∧ rest = [] ∧ v1 % 16 = 0
          · rw [if_pos hpad] at h
            injection h with hb
            subst hb
            obtain ⟨h61, hrest, hmod⟩ := hpad
            subst h61
            subst hrest
            subst hc2
            unfold encodeGroups
            have e0 : (v0 * 4 + v1 / 16) / 4 = v0 := by omega
            have e1 : (v0 * 4 + v1 / 16) % 4 * 16 = v1 := by omega
            rw [e0, e1, hc0, hc1]
          · rw [if_neg hpad] at h
            exact Option.noConfusion h
        · rw [if_neg hc2] at h
          cases h2 : b64val c2 with
          | none => simp only [h2] at h; exact Option.noConfusion h
          | some v2 =>
            simp only [h2] at h
            obtain ⟨hv2, hc2e⟩ := b64val_some h2
            by_cases hc3 : c3 = 61
            · rw [if_pos hc3] at h
              by_cases hpad : rest = [] ∧ v2 % 4 = 0
              · rw [if_pos hpad] at h
                injection h with hb
                subst hb
                obtain ⟨hrest, hmod⟩ := hpad
                subst hrest
                subst hc3
                unfold encodeGroups
                have e0 : (v0 * 4 + v1 / 16) / 4 = v0 := by omega
                have e1 : (v0 * 4 + v1 / 16) % 4 * 16 +
                    (v1 % 16 * 16 + v2 / 4) / 16 = v1 := by omega
                have e2 : (v1 % 16 * 16 + v2 / 4) % 16 * 4 = v2 := by omega
                rw [e0, e1, e2, hc0, hc1, hc2e]
              · rw [if_neg hpad] at h
                exact Option.noConfusion h
            · rw [if_neg hc3] at h
              cases h3 : b64val c3 with
              | none => simp only [h3] at h; exact Option.noConfusion h
              | some v3 =>
                simp only [h3] at h
                obtain ⟨hv3, hc3e⟩ := b64val_some h3
                cases hr : decodeGroups rest with
                | none => simp only [hr, Option.map_none'] at h; exact Option.noConfusion h
                | some bs =>
                  simp only [hr, Option.map_some'] at h
                  injection h with hb
                  subst hb
                  have ih := decode_encode rest bs hr
                  unfold encodeGroups
                  have e0 : (v0 * 4 + v1 / 16) / 4 = v0 := by omega
                  have e1 : (v0 * 4 + v1 / 16) % 4 * 16 +
                      (v1 % 16 * 16 + v2 / 4) / 16 = v1 := by omega
                  have e2 : (v1 % 16 * 16 + v2 / 4) % 16 * 4 +
                      (v2 % 4 * 64 + v3) / 64 = v2 := by omega
                  have e3 : (v2 % 4 * 64 + v3) % 64 = v3 := by omega
                  rw [e0, e1, e2, e3, hc0, hc1, hc2e, hc3e, ih]

/-- Two distinct strings cannot canonically decode to the same bytes. -/
theorem decode_inj {s1 s2 b : List Nat} (h1 : decodeB64 s1 = some b)
    (h2 : decodeB64 s2 = some b) : s1 = s2 := by
  rw [← decode_encode s1 b h1, ← decode_encode s2 b h2]

/-- Every character of a successfully decoded base64 text is `=` or an
alphabet character. -/
theorem decode_mem_valid : ∀ (s b : List Nat), decodeGroups s = some b →
    ∀ c ∈ s, c = 61 ∨ (b64val c).isSome = true
  | [], _, _ => by intro c hc; cases hc
  | [_], _, h => by exact Option.noConfusion h
  | [_, _], _, h => by exact Option.noConfusion h
  | [_, _, _], _, h => by exact Option.noConfusion h
  | c0 :: c1 :: c2 :: c3 :: rest, b, h => by
    unfold decodeGroups at h
    cases h0 : b64val c0 with
    | none => simp only [h0] at h; exact Option.noConfusion h
    | some v0 =>
      simp only [h0] at h
      cases h1 : b64val c1 with
      | none => simp only [h1] at h; exact Option.noConfusion h
      | some v1 =>
        simp only [h1] at h
        intro c hc
        rcases List.mem_cons.1 hc with rfl | hc
        · exact Or.inr (by simp [h0])
        rcases List.mem_cons.1 hc with rfl | hc
        · exact Or.inr (by simp [h1])
        by_cases hc2 : c2 = 61
        · rw [if_pos hc2] at h
          by_cases hpad : c3 = 61 ∧ rest = [] ∧ v1 % 16 = 0
          · obtain ⟨h61, hrest, _⟩ := hpad
            subst hrest
            rcases List.mem_cons.1 hc with rfl | hc
            · exact Or.inl hc2
            rcases List.mem_cons.1 hc with rfl | hc
            · exact Or.inl h61
            · cases hc
          · rw [if_neg hpad] at h
            exact Option.noConfusion h
        · rw [if_neg hc2] at h
          cases h2 : b64val c2 with
          | none => simp only [h2] at h; exact Option.noConfusion h
          | some v2 =>
            simp only [h2] at h
            rcases List.mem_cons.1 hc with rfl | hc
            · exact Or.inr (by simp [h2])
            by_cases hc3 : c3 = 61
            · rw [if_pos hc3] at h
              by_cases hpad : rest = [] ∧ v2 % 4 = 0
              · obtain ⟨hrest, _⟩ := hpad
                subst hrest
                rcases List.mem_cons.1 hc with rfl | hc
                · exact Or.inl hc3
                · cases hc
              · rw [if_neg hpad] at h
                exact Option.noConfusion h
            · rw [if_neg hc3] at h
              cases h3 : b64val c3 with
              | none => simp only [h3] at h; exact Option.noConfusion h
              | some v3 =>
                simp only [h3] at h
                rcases List.mem_cons.1 hc with rfl | hc
                · exact Or.inr (by simp [h3])
                · cases hr : decodeGroups rest with
                  | none => rw [hr] at h; exact Option.noConfusion h
                  | some bs => exact decode_mem_valid rest bs hr c hc

/-- A text containing the `.` byte never base64-decodes. -/
theorem decode_none_of_mem46 {l : List Nat} (h46 : 46 ∈ l) :
    decodeB64 l = none := by
  cases hd : decodeB64 l with
  | none => rfl
  | some b =>
    rcases decode_mem_valid l b hd 46 h46 with h | h
    · exact absurd h (by decide)
    · rw [show b64val 46 = none from rfl] at h
      exact absurd h (by decide)

/-! ## Bit flips -/

/-- Flip bit `k` of the byte at position `i`. -/
def flipAt (l : List Nat) (i k : Nat) : List Nat :=
  l.set i ((l.getD i 0) ^^^ 2 ^ k)

theorem xor_pow2_ne (n k : Nat) : n ^^^ 2 ^ k ≠ n := by
  intro h
  have h2 : (n ^^^ 2 ^ k) ^^^ n = n ^^^ n := by rw [h]
  rw [Nat.xor_comm n (2 ^ k), Nat.xor_assoc, Nat.xor_self, Nat.xor_zero] at h2
  have := Nat.pos_pow_of_pos k (by omega : 0 < 2)
  omega

theorem flipAt_length (l : List Nat) (i k : Nat) :
    (flipAt l i k).length = l.length := by
  simp [flipAt]

theorem flipAt_ne {l : List Nat} {i : Nat} (k : Nat) (hi : i < l.length) :
    flipAt l i k ≠ l := by
  intro h
  have hget : (flipAt l i k).getD i 0 = l.getD i 0 := by rw [h]
  have hset : (flipAt l i k).getD i 0 = (l.getD i 0) ^^^ 2 ^ k := by
    simp [flipAt, List.getD_eq_getElem?_getD, List.getElem?_set_self, hi]
  rw [hset] at hget
  exact xor_pow2_ne _ k hget

/-! ## `verifyParts` error computations -/

theorem vp_badPayload {E : Ext} {now : Int} {p s : List Nat}
    (hp : decodeB64 p = none) :
    verifyParts E now p s = .error .badPayloadB64 := by
  unfold verifyParts
  rw [hp]

theorem vp_badSig {E : Ext} {now : Int} {p s pb : List Nat}
    (hp : decodeB64 p = some pb) (hs : decodeB64 s = none) :
    verifyParts E now p s = .error .badSigB64 := by
  unfold verifyParts
  simp only [hp, hs]

theorem vp_sigLen {E : Ext} {now : Int} {p s pb sb : List Nat}
    (hp : decodeB64 p = some pb) (hs : decodeB64 s = some sb)
    (hkey : E.keyValid = true) (hlen : sb.length ≠ 64) :
    verifyParts E now p s = .error .sigLen := by
  obtain ⟨pk, hpk, hpklen⟩ := pubKey_decodes
  unfold verifyParts
  simp only [hp, hs, hpk]
  rw [if_neg (show ¬ pk.length ≠ 32 by omega),
    if_neg (show ¬¬ E.keyValid = true by simp [hkey]),
    if_pos hlen]

theorem vp_sigInvalid {E : Ext} {now : Int} {p s pb sb : List Nat}
    (hp : decodeB64 p = some pb) (hs : decodeB64 s = some sb)
    (hkey : E.keyValid = true) (hlen : sb.length = 64)
    (hv : E.verify pb sb = false) :
    verifyParts E now p s = .error .sigInvalid := by
  obtain ⟨pk, hpk, hpklen⟩ := pubKey_decodes
  unfold verifyParts
  simp only [hp, hs, hpk]
  rw [if_neg (show ¬ pk.length ≠ 32 by omega),
    if_neg (show ¬¬ E.keyValid = true by simp [hkey]),
    if_neg (show ¬ sb.length ≠ 64 by omega),
    if_pos (show ¬ E.verify pb sb = true by simp [hv])]

/-- Splitting a blob whose first segment contains a `.` leaves a `.` in
the second part of the split. -/
theorem split_with_dot_in_seg {P2 S : List Nat} (h46 : 46 ∈ P2) :
    ∃ p1 s1, splitn2 (P2 ++ 46 :: S) = [p1, s1] ∧ 46 ∈ s1 := by
  have hm : 46 ∈ P2 ++ 46 :: S := List.mem_append_left _ h46
  have hsp : splitn2 (P2 ++ 46 :: S) =
      [(P2 ++ 46 :: S).takeWhile notDot,
        ((P2 ++ 46 :: S).dropWhile notDot).tail] := by
    unfold splitn2
    rw [if_pos hm]
  obtain ⟨hb, hnp⟩ := splitn2_eq_pair hsp
  refine ⟨_, _, hsp, ?_⟩
  have hc := congrArg (List.count 46) hb
  rw [List.count_append, List.count_append] at hc
  simp only [List.count_cons_self] at hc
  have hcp1 : List.count 46 ((P2 ++ 46 :: S).takeWhile notDot) = 0 :=
    List.count_eq_zero.2 hnp
  have hcP2 : 0 < List.count 46 P2 := List.count_pos_iff.2 h46
  have : 0 < List.count 46 (((P2 ++ 46 :: S).dropWhile notDot).tail) := by
    omega
  exact List.count_pos_iff.1 this

/-! ## Claim C9 -/

/-- Concrete signature segment for the C9 instances: the canonical
base64 text of 64 zero bytes. -/
def S9 : List Nat := List.replicate 84 65 ++ [65, 65, 61, 61]

/-- Concrete payload for the C9 instances. -/
def pay9 : LicensePayload := ⟨"e", "p", 1, "M", "i", "X", 1⟩

/-- Concrete oracles for the C9 instances: the verifier accepts exactly
the payload bytes `[0]` with the 64-zero-byte signature (the behaviour
strong unforgeability guarantees for a single issued license). -/
def E9 : Ext :=
  ⟨fun p s => p == [0] && s == List.replicate 64 0, true,
    fun _ => some pay9, fun _ => some 1⟩

/-- C9 counterexample: flipping one bit (bit 0 of the first character of
the payload segment) of a valid blob turns `A` (65) into `@` (64) — a
plain ASCII character, so the flipped blob is still a representable
Rust `&str` — which is outside the base64 alphabet, so
`verify_license_blob` returns the payload-base64 malformed-blob error —
not `SignatureInvalid` as the claim states for every single-bit flip. -/
theorem C9_bit_flip_counterexample :
    verify_license_blob E9 0 ([65, 65, 61, 61] ++ 46 :: S9) = .ok pay9 ∧
    flipAt [65, 65, 61, 61] 0 0 = [64, 65, 61, 61] ∧
    (∀ c ∈ [64, 65, 61, 61] ++ 46 :: S9, c < 128) ∧
    verify_license_blob E9 0 ([64, 65, 61, 61] ++ 46 :: S9) =
      .error .badPayloadB64 ∧
    LErr.badPayloadB64 ≠ LErr.sigInvalid := by
  refine ⟨rfl, by decide, by decide, rfl, by decide⟩

/-- C9 (amended): for every valid license blob and every single-bit flip
in either of its two segments among the flips of bits 0–6 — exactly the
flips after which every byte stays ASCII, so the flipped blob is still a
representable UTF-8 `&str` (a bit-7 flip makes the stored file invalid
UTF-8, `read_to_string` fails, and the blob never reaches
`verify_license_blob`) — `verify_license_blob` returns an error:
`SignatureInvalid` when the flipped blob still splits and base64-decodes
with a 64-byte signature (under the strong-unforgeability assumption
that the verifier accepts only the original payload/signature pair), and
a malformed-blob error (bad payload/signature base64 or signature
length) otherwise — and in particular never accepts, never panics. -/
theorem C9_single_bit_flip_rejected :
    ∀ (E : Ext) (now : Int) (P S pb sb B2 : List Nat) (pay : LicensePayload),
      verify_license_blob E now (P ++ 46 :: S) = .ok pay →
      46 ∉ P →
      decodeB64 P = some pb → decodeB64 S = some sb →
      (∀ p s, E.verify p s = true → p = pb ∧ s = sb) →
      ((∃ i k, i < P.length ∧ k < 7 ∧ B2 = flipAt P i k ++ 46 :: S) ∨
        (∃ j k, j < S.length ∧ k < 7 ∧ B2 = P ++ 46 :: flipAt S j k)) →
      ∃ e, verify_license_blob E now B2 = .error e ∧
        (e = .sigInvalid ∨ e = .badPayloadB64 ∨ e = .badSigB64 ∨
          e = .sigLen) := by
  intro E now P S pb sb B2 pay hok hP46 hdp hds huniq hflip
  have hvp : verifyParts E now P S = .ok pay := by
    unfold verify_license_blob at hok
    rw [splitn2_of_not_mem P S hP46] at hok
    exact hok
  obtain ⟨pb2, sb2, hdp2, hds2, hslen, hkey, hv, hpp, hexp⟩ :=
    verifyParts_ok_inv hvp
  rw [hdp] at hdp2
  injection hdp2 with hpbe
  subst hpbe
  rw [hds] at hds2
  injection hds2 with hsbe
  subst hsbe
  rcases hflip with ⟨i, k, hi, _, hB2⟩ | ⟨j, k, hj, _, hB2⟩
  · subst hB2
    by_cases h46 : 46 ∈ flipAt P i k
    · obtain ⟨p1, s1, hsp, h46s⟩ := @split_with_dot_in_seg (flipAt P i k) S h46
      unfold verify_license_blob
      rw [hsp]
      cases hp1 : decodeB64 p1 with
      | none => exact ⟨.badPayloadB64, vp_badPayload hp1, by simp⟩
      | some pb1 =>
        exact ⟨.badSigB64, vp_badSig hp1 (decode_none_of_mem46 h46s), by simp⟩
    · unfold verify_license_blob
      rw [splitn2_of_not_mem _ S h46]
      cases hp1 : decodeB64 (flipAt P i k) with
      | none => exact ⟨.badPayloadB64, vp_badPayload hp1, by simp⟩
      | some pb1 =>
        have hne : pb1 ≠ pb := by
          intro he
          subst he
          exact flipAt_ne k hi (decode_inj hp1 hdp)
        have hvf : E.verify pb1 sb = false := by
          cases hvv : E.verify pb1 sb
          · rfl
          · exact absurd (huniq pb1 sb hvv).1 hne
        exact ⟨.sigInvalid, vp_sigInvalid hp1 hds hkey hslen hvf, by simp⟩
  · subst hB2
    unfold verify_license_blob
    rw [splitn2_of_not_mem P _ hP46]
    cases hs1 : decodeB64 (flipAt S j k) with
    | none => exact ⟨.badSigB64, vp_badSig hdp hs1, by simp⟩
    | some sb1 =>
      have hne : sb1 ≠ sb := by
        intro he
        subst he
        exact flipAt_ne k hj (decode_inj hs1 hds)
      by_cases hlen1 : sb1.length = 64
      · have hvf : E.verify pb sb1 = false := by
          cases hvv : E.verify pb sb1
          · rfl
          · exact absurd (huniq pb sb1 hvv).2 hne
        exact ⟨.sigInvalid, vp_sigInvalid hdp hs1 hkey hlen1 hvf, by simp⟩
      · exact ⟨.sigLen, vp_sigLen hdp hs1 hkey hlen1, by simp⟩

/-- Witness for C9 at a concrete valid blob and a concrete
representable bit flip (bit 0 of the first payload character, `A` to
`@`). -/
theorem C9_single_bit_flip_rejected_witness :
    ∃ e, verify_license_blob E9 0 ([64, 65, 61, 61] ++ 46 :: S9) =
      .error e ∧
      (e = .sigInvalid ∨ e = .badPayloadB64 ∨ e = .badSigB64 ∨
        e = .sigLen) :=
  C9_single_bit_flip_rejected E9 0 [65, 65, 61, 61] S9 [0]
    (List.replicate 64 0) ([64, 65, 61, 61] ++ 46 :: S9) pay9
    rfl (by decide) (by decide) (by decide)
    (by intro p s hp; simpa [E9] using hp)
    (Or.inl ⟨0, 0, by decide, by decide, by decide⟩)

end PromptShield
